import Mathlib

/-!
Verification of the Intel Briefing core against its specification.

Shallow embedding of the two core components:
* the V2EX lead-scoring engine (`src/sensors/v2ex_radar.py`), and
* the anti-hallucination link validator (`src/intel_collector.py`,
  with the liveness checker of `src/utils/verifier.py`).

Python strings are modelled as `List Char` (sequences of Unicode code
points, matching Python's `len`/slicing semantics).
-/

namespace Intel

set_option maxRecDepth 100000

/-- Python's `pat in l` on strings: `pat` occurs as a contiguous
substring of `l`. -/
def isSubstring (pat : List Char) : List Char → Bool
  | [] => pat.isPrefixOf []
  | c :: cs => pat.isPrefixOf (c :: cs) || isSubstring pat cs

/-- Python `str.lower()`. The keyword tables mix Chinese (unaffected by
case folding) and ASCII tech names, and the spec (§4.1) states that
case-folding applies only to the ASCII substrings, which is exactly
`Char.toLower`'s behaviour. -/
def lowerText (l : List Char) : List Char := l.map Char.toLower

/-! ### Keyword tables of `V2EXRadar` (v2ex_radar.py lines 35-53) -/

def MONEY_KEYWORDS : List (List Char) :=
  ["外包", "兼职", "有偿", "预算", "报价", "招", "急", "付费"].map String.data

def PAIN_KEYWORDS : List (List Char) :=
  ["求助", "帮忙", "不懂", "救命", "怎么做", "太难", "崩溃", "无法", "报错"].map String.data

def DESPERATION_KEYWORDS : List (List Char) :=
  ["在线等", "有偿", "急", "救命", "红包", "崩溃", "求大佬", "付费解决"].map String.data

def TECH_KEYWORDS : List (List Char) :=
  ["FPGA", "Verilog", "Python", "爬虫", "脚本", "Web3", "Solana",
   "Rust", "图像", "视觉", "识别", "抠图", "Automation", "Bot"].map String.data

/-! ### Category hit predicates (`_analyze_content`, lines 112-136).
The code lowercases `title + content` once and tests each (lowercased)
keyword for substring membership. -/

def moneyHit (title body : List Char) : Bool :=
  (MONEY_KEYWORDS.map lowerText).any fun k => isSubstring k (lowerText (title ++ body))

def painHit (title body : List Char) : Bool :=
  (PAIN_KEYWORDS.map lowerText).any fun k => isSubstring k (lowerText (title ++ body))

def urgencyHit (title body : List Char) : Bool :=
  (DESPERATION_KEYWORDS.map lowerText).any fun k => isSubstring k (lowerText (title ++ body))

/-- `tech_matches = [t for t in TECH_KEYWORDS if t.lower() in text]`
(line 133): the matched keywords keep their original casing and the
fixed order of `TECH_KEYWORDS`. -/
def techMatches (title body : List Char) : List (List Char) :=
  TECH_KEYWORDS.filter fun t => isSubstring (lowerText t) (lowerText (title ++ body))

/-! ### Tags (the spec's table §4.1 names them Money / Pain / Urgent /
`Tech:<matches>`; the code's literals carry emoji markers). -/

def moneyTag : List Char := "💰Money".data

def painTag : List Char := "🚑Pain".data

def urgentTag : List Char := "🔥Urgent".data

/-- `f"🛠️{','.join(tech_matches)}"` (line 135). `🛠️` is the two code
points U+1F6E0 U+FE0F. -/
def techTagOf (ms : List (List Char)) : List Char :=
  "🛠️".data ++ List.intercalate ",".data ms

/-- The tag list built by `_analyze_content` (lines 117-136): append
order is the fixed category order Money, Pain, Urgent, TechMatch. -/
def buildTags (m p u : Bool) (tm : List (List Char)) : List (List Char) :=
  (if m then [moneyTag] else []) ++ (if p then [painTag] else [])
    ++ (if u then [urgentTag] else [])
    ++ (if tm.isEmpty then [] else [techTagOf tm])

/-- The score accumulated by `_analyze_content` before qualification:
`+20` Money, `+10` Pain, `+100` Desperation, `+30` TechMatch. -/
def baseScore (m p u : Bool) (tm : List (List Char)) : Nat :=
  (if m then 20 else 0) + (if p then 10 else 0) + (if u then 100 else 0)
    + (if tm.isEmpty then 0 else 30)

/-- `V2EXRadar._analyze_content` (lines 112-145): builds tags and score,
then qualifies the item iff one of the Money/Pain/Urgent tags is in the
tag list (membership test mirroring the code's `in found_tags`); a
qualifying item with tech matches gets the `+50` bonus, a
non-qualifying item yields `([], 0)`. -/
def analyzeContent (title body : List Char) : List (List Char) × Nat :=
  let tags := buildTags (moneyHit title body) (painHit title body)
      (urgencyHit title body) (techMatches title body)
  let score := baseScore (moneyHit title body) (painHit title body)
      (urgencyHit title body) (techMatches title body)
  if moneyTag ∈ tags ∨ painTag ∈ tags ∨ urgentTag ∈ tags then
    (tags, score + if (techMatches title body).isEmpty then 0 else 50)
  else ([], 0)

/-! ### `_clean_summary` (lines 147-150): `re.sub('<[^<]+?>', '', html)`
then truncation to 200 characters plus an ellipsis. -/

/-- Scans for the `>` closing a lazy `<[^<]+?>` match, after the first
(mandatory) non-`<` character has been consumed: stops at the first
`>`, fails on `<` or end of input. Returns the rest after the `>`. -/
def closeTag : List Char → Option (List Char)
  | [] => none
  | c :: cs => if c = '>' then some cs else if c = '<' then none else closeTag cs

/-- Attempts the part of a lazy `<[^<]+?>` match that follows the
opening `<`: at least one non-`<` character, then the first `>`. -/
def tagEnd : List Char → Option (List Char)
  | [] => none
  | c :: cs => if c = '<' then none else closeTag cs

/-- `re.sub('<[^<]+?>', '', html)`, scanning left to right; the fuel is
the input length, which bounds the recursion since every step consumes
at least one character. -/
def stripAux : Nat → List Char → List Char
  | 0, l => l
  | _ + 1, [] => []
  | fuel + 1, c :: cs =>
    if c = '<' then
      match tagEnd cs with
      | some rest => stripAux fuel rest
      | none => c :: stripAux fuel cs
    else c :: stripAux fuel cs

def stripHtml (l : List Char) : List Char := stripAux l.length l

/-- `V2EXRadar._clean_summary`: strip HTML tags, then
`clean[:200] + "..." if len(clean) > 200 else clean`. -/
def cleanSummary (html : List Char) : List Char :=
  let clean := stripHtml html
  if 200 < clean.length then clean.take 200 ++ "...".data else clean

/-! ### Items and leads -/

/-- The spec's RawItem (§3): one input unit of the Scoring Engine. -/
structure RawItem where
  title : List Char
  body : List Char
  url : List Char
  postedAt : List Char
  sourceTag : List Char
  deriving DecidableEq, Repr

/-- The `Lead` dataclass of v2ex_radar.py (lines 13-21); `score` models
`desperation_score`. -/
structure Lead where
  source : List Char
  title : List Char
  url : List Char
  summary : List Char
  postedDate : List Char
  tags : List (List Char)
  score : Nat
  deriving DecidableEq, Repr

/-- The per-item body of the `fetch_leads` loop (lines 89-101): analyze
the content, and build a `Lead` only when the tag list is non-empty
(Python's `if tags:`). -/
def leadOf (r : RawItem) : Option Lead :=
  let res := analyzeContent r.title r.body
  if res.1.isEmpty then none
  else some { source := r.sourceTag, title := r.title, url := r.url,
              summary := cleanSummary r.body, postedDate := r.postedAt,
              tags := res.1, score := res.2 }

/-- One insertion step of a stable descending sort by score: skips the
strictly greater scores and lands before the first element whose score
is `≤` its own, so an earlier input item precedes later equal-score
items. -/
def insertLead (x : Lead) : List Lead → List Lead
  | [] => [x]
  | y :: ys => if x.score < y.score then y :: insertLead x ys else x :: y :: ys

/-- `all_leads.sort(key=lambda x: x.desperation_score, reverse=True)`
(line 107): Python's `list.sort` is a stable sort, and with
`reverse=True` it sorts by score descending while equal-score elements
keep their original relative order; modelled as a stable insertion
sort. -/
def sortLeads (l : List Lead) : List Lead := l.foldr insertLead []

/-- The pure core of `V2EXRadar.fetch_leads` (the spec's
`score_items`, §4.1): map each raw item through the analyze/qualify
step in input order, then stable-sort by score descending. -/
def scoreItems (items : List RawItem) : List Lead :=
  sortLeads (items.filterMap leadOf)

/-! ## Anti-hallucination validator (`validate_grok_report`,
intel_collector.py lines 79-113) -/

/-- The `https?` part of the link pattern: `http` followed by an
optional `s`, then `://`. Returns the matched scheme and the rest. If
an `s` follows `http` it must be taken (backtracking to the
`s`-less alternative would immediately require `:` where the `s`
stands, so the match is deterministic). -/
def takeScheme : List Char → Option (List Char × List Char)
  | 'h' :: 't' :: 't' :: 'p' :: rest =>
    match rest with
    | 's' :: ':' :: '/' :: '/' :: r => some ("https://".data, r)
    | ':' :: '/' :: '/' :: r => some ("http://".data, r)
    | _ => none
  | _ => none

/-- One attempt of the extraction pattern
`\[([^\]]+)\]\((https?://[^\)]+)\)` (line 88) at the current position.
Both character classes are greedy runs excluding the very character
that must follow them, so the regex match is deterministic. On success
returns the display text, the url, and the rest of the input after the
match. -/
def matchLinkAt : List Char → Option (List Char × List Char × List Char)
  | '[' :: rest =>
    let txt := rest.takeWhile (fun c => c ≠ ']')
    if txt.isEmpty then none
    else
      match rest.dropWhile (fun c => c ≠ ']') with
      | ']' :: '(' :: r2 =>
        match takeScheme r2 with
        | some (scheme, r3) =>
          let site := r3.takeWhile (fun c => c ≠ ')')
          if site.isEmpty then none
          else
            match r3.dropWhile (fun c => c ≠ ')') with
            | ')' :: r4 => some (txt, scheme ++ site, r4)
            | _ => none
        | none => none
      | _ => none
  | _ => none

/-- `re.findall` scanning: try the pattern at each position, and resume
after the end of each successful match (matches are non-overlapping,
in first-occurrence order). The fuel is the input length, which bounds
the recursion since every step consumes at least one character. -/
def scanAux : Nat → List Char → List (List Char × List Char)
  | 0, _ => []
  | _ + 1, [] => []
  | fuel + 1, c :: cs =>
    match matchLinkAt (c :: cs) with
    | some (t, u, rest) => (t, u) :: scanAux fuel rest
    | none => scanAux fuel cs

/-- `re.findall(link_pattern, markdown_content)` (line 89). -/
def scanLinks (l : List Char) : List (List Char × List Char) :=
  scanAux l.length l

/-- Python `str.replace` scanning: replace the leftmost occurrence of
`pat` and resume after the replacement point (non-overlapping, left to
right). Only used with a non-empty `pat`; the fuel is the input
length, which bounds the recursion since every step consumes at least
one character. -/
def replaceAllAux (pat repl : List Char) : Nat → List Char → List Char
  | 0, l => l
  | _ + 1, [] => []
  | fuel + 1, c :: cs =>
    if pat.isPrefixOf (c :: cs) then
      repl ++ replaceAllAux pat repl fuel ((c :: cs).drop pat.length)
    else
      c :: replaceAllAux pat repl fuel cs

/-- `validated_content.replace(old_link, new_link)` (line 108) for a
non-empty pattern (every `old_link` starts with `[`). -/
def replaceAll (pat repl l : List Char) : List Char :=
  if pat.isEmpty then l else replaceAllAux pat repl l.length l

/-- `f"[{title}]({url})"` (line 106). -/
def linkText (t u : List Char) : List Char :=
  "[".data ++ t ++ "](".data ++ u ++ ")".data

/-- The warning appended to an invalid link (line 107); `⚠️` is the two
code points U+26A0 U+FE0F. -/
def warnMark : List Char := " **(⚠️ 链接验证失败/404)**".data

/-- The skip list hard-coded in the loop (line 99). -/
def SKIP_DOMAINS : List (List Char) :=
  ["twitter.com", "x.com", "weibo.com", "xiaohongshu.com"].map String.data

/-- Result of the validation loop, instrumented with the sequence of
urls passed to the liveness checker (`calls`) and the `(title, url)`
pairs whose link text was rewritten with the warning (`rewrites`). -/
structure ValTrace where
  out : List Char
  calls : List (List Char)
  rewrites : List (List Char × List Char)
  deriving DecidableEq, Repr

/-- The `for title, url in matches` loop of `validate_grok_report`
(lines 97-111): a url containing a skip-domain entry as a substring is
passed over without probing; otherwise `verify_link` is consulted and,
when it answers false, every occurrence of the literal link text is
replaced by itself followed by the warning. -/
def validateLoop (live : List Char → Bool) (skips : List (List Char)) :
    List (List Char × List Char) → List Char → ValTrace
  | [], acc => { out := acc, calls := [], rewrites := [] }
  | (t, u) :: rest, acc =>
    if skips.any (fun d => isSubstring d u) then
      validateLoop live skips rest acc
    else if live u then
      let r := validateLoop live skips rest acc
      { r with calls := u :: r.calls }
    else
      let r := validateLoop live skips rest
          (replaceAll (linkText t u) (linkText t u ++ warnMark) acc)
      { r with calls := u :: r.calls, rewrites := (t, u) :: r.rewrites }

/-- `validate_grok_report` (lines 79-113), parameterised — as the
spec's `validate_and_annotate` contract (§4.2) — by the injected
liveness checker and skip-domain list; the code instantiates them with
`verify_link` and `SKIP_DOMAINS`. Returns the input unchanged when no
link matches the extraction pattern. -/
def validateGrokReport (live : List Char → Bool) (skips : List (List Char))
    (text : List Char) : List Char :=
  let ms := scanLinks text
  if ms.isEmpty then text
  else (validateLoop live skips ms text).out

/-- The host part of a url: what stands between the `://` of the
scheme and the next `/` (or the end). -/
def afterScheme : List Char → List Char
  | [] => []
  | c :: cs => if c = ':' ∧ cs.take 2 = ['/', '/'] then cs.drop 2 else afterScheme cs

def urlHost (u : List Char) : List Char :=
  (afterScheme u).takeWhile (fun c => c ≠ '/')

/-! ## Liveness checker (`verify_link`, verifier.py lines 5-31).

The network is modelled by the outcomes of the two probes the function
can make: `headRes` is the final status of the `httpx.head` call (after
redirects) or `Except.error` if the request raised, and `getRes`
likewise for the `httpx.get` fallback. `verify_link` is a total
function of those outcomes — the model of "never raises". -/
def verifyLink (headRes getRes : Except Unit Nat) : Bool :=
  match headRes with
  | .error _ => false
  | .ok s =>
    if s = 200 then true
    else if s = 404 then false
    else
      match getRes with
      | .error _ => false
      | .ok s2 => s2 == 200


/-! ## Lemma layer -/

theorem isSubstring_iff_occurs {pat l : List Char} :
    isSubstring pat l = true ↔ pat <:+: l := by
  induction l with
  | nil => simp [isSubstring]
  | cons c cs ih => simp [isSubstring, ih, List.infix_cons_iff]

theorem techTagOf_head (ms : List (List Char)) :
    techTagOf ms = '🛠' :: ('️' :: List.intercalate ",".data ms) := rfl

theorem techTagOf_ne_moneyTag (ms : List (List Char)) : techTagOf ms ≠ moneyTag := by
  rw [techTagOf_head]
  intro h
  have h0 : ('🛠' : Char) = '💰' := by
    have := congrArg (fun l => l.headD ' ') h
    simp at this
    exact this
  exact absurd h0 (by decide)

theorem techTagOf_ne_painTag (ms : List (List Char)) : techTagOf ms ≠ painTag := by
  rw [techTagOf_head]
  intro h
  have h0 : ('🛠' : Char) = '🚑' := by
    have := congrArg (fun l => l.headD ' ') h
    simp at this
    exact this
  exact absurd h0 (by decide)

theorem techTagOf_ne_urgentTag (ms : List (List Char)) : techTagOf ms ≠ urgentTag := by
  rw [techTagOf_head]
  intro h
  have h0 : ('🛠' : Char) = '🔥' := by
    have := congrArg (fun l => l.headD ' ') h
    simp at this
    exact this
  exact absurd h0 (by decide)

theorem moneyTag_ne_techTagOf (ms : List (List Char)) : moneyTag ≠ techTagOf ms :=
  (techTagOf_ne_moneyTag ms).symm

theorem painTag_ne_techTagOf (ms : List (List Char)) : painTag ≠ techTagOf ms :=
  (techTagOf_ne_painTag ms).symm

theorem urgentTag_ne_techTagOf (ms : List (List Char)) : urgentTag ≠ techTagOf ms :=
  (techTagOf_ne_urgentTag ms).symm

theorem moneyTag_ne_painTag : moneyTag ≠ painTag := by decide

theorem moneyTag_ne_urgentTag : moneyTag ≠ urgentTag := by decide

theorem painTag_ne_moneyTag : painTag ≠ moneyTag := by decide

theorem painTag_ne_urgentTag : painTag ≠ urgentTag := by decide

theorem urgentTag_ne_moneyTag : urgentTag ≠ moneyTag := by decide

theorem urgentTag_ne_painTag : urgentTag ≠ painTag := by decide

/-- The qualification test of line 139 (`"💰Money" in found_tags or ...`)
holds exactly when one of the Money/Pain/Urgency categories hit. -/
theorem mem_buildTags_qual (m p u : Bool) (tm : List (List Char)) :
    (moneyTag ∈ buildTags m p u tm ∨ painTag ∈ buildTags m p u tm
      ∨ urgentTag ∈ buildTags m p u tm) ↔ (m || p || u) = true := by
  cases m <;> cases p <;> cases u <;> cases htm : tm.isEmpty <;>
    simp [buildTags, htm, moneyTag_ne_techTagOf tm, painTag_ne_techTagOf tm,
      urgentTag_ne_techTagOf tm, moneyTag_ne_painTag, moneyTag_ne_urgentTag,
      painTag_ne_moneyTag, painTag_ne_urgentTag, urgentTag_ne_moneyTag,
      urgentTag_ne_painTag]

theorem analyzeContent_eq (t b : List Char) :
    analyzeContent t b =
      if (moneyHit t b || painHit t b || urgencyHit t b) = true then
        (buildTags (moneyHit t b) (painHit t b) (urgencyHit t b) (techMatches t b),
         baseScore (moneyHit t b) (painHit t b) (urgencyHit t b) (techMatches t b)
           + if (techMatches t b).isEmpty then 0 else 50)
      else ([], 0) := by
  simp only [analyzeContent]
  by_cases h : (moneyHit t b || painHit t b || urgencyHit t b) = true
  · rw [if_pos ((mem_buildTags_qual _ _ _ _).mpr h), if_pos h]
  · rw [if_neg (fun hc => h ((mem_buildTags_qual _ _ _ _).mp hc)), if_neg h]

theorem buildTags_ne_nil {m p u : Bool} (tm : List (List Char))
    (h : (m || p || u) = true) : buildTags m p u tm ≠ [] := by
  cases m <;> cases p <;> cases u <;> simp_all [buildTags]

theorem baseScore_pos {m p u : Bool} (tm : List (List Char))
    (h : (m || p || u) = true) : 0 < baseScore m p u tm := by
  cases m <;> cases p <;> cases u <;> cases htm : tm.isEmpty <;>
    simp_all [baseScore]

theorem analyzeContent_fst_ne_nil_iff (t b : List Char) :
    (analyzeContent t b).1 ≠ [] ↔ (moneyHit t b || painHit t b || urgencyHit t b) = true := by
  rw [analyzeContent_eq]
  by_cases h : (moneyHit t b || painHit t b || urgencyHit t b) = true
  · simp [h, buildTags_ne_nil (techMatches t b) h]
  · simp [h]

theorem analyzeContent_snd_pos (t b : List Char)
    (h : (analyzeContent t b).1 ≠ []) : 0 < (analyzeContent t b).2 := by
  rw [analyzeContent_eq] at h ⊢
  by_cases hq : (moneyHit t b || painHit t b || urgencyHit t b) = true
  · rw [if_pos hq]
    exact Nat.lt_of_lt_of_le (baseScore_pos (techMatches t b) hq) (Nat.le_add_right _ _)
  · rw [if_neg hq] at h
    exact absurd rfl h

theorem leadOf_isSome_iff (r : RawItem) :
    (leadOf r).isSome = true ↔ (analyzeContent r.title r.body).1 ≠ [] := by
  simp only [leadOf]
  split <;> rename_i hsp <;> simp_all

theorem leadOf_eq_some {r : RawItem} {l : Lead} (h : leadOf r = some l) :
    l.tags = (analyzeContent r.title r.body).1
      ∧ l.score = (analyzeContent r.title r.body).2
      ∧ (analyzeContent r.title r.body).1 ≠ []
      ∧ l.summary = cleanSummary r.body := by
  simp only [leadOf] at h
  by_cases hsp : (analyzeContent r.title r.body).1.isEmpty = true
  · rw [if_pos hsp] at h
    exact Option.noConfusion h
  · rw [if_neg hsp] at h
    cases h
    simp_all

/-! ### Stable sort lemmas -/

theorem mem_insertLead {z x : Lead} : ∀ {l : List Lead},
    z ∈ insertLead x l ↔ z = x ∨ z ∈ l := by
  intro l
  induction l with
  | nil => simp [insertLead]
  | cons y ys ih =>
    simp only [insertLead]
    split
    · simp only [List.mem_cons, ih]
      tauto
    · simp only [List.mem_cons]

theorem mem_sortLeads {z : Lead} : ∀ {l : List Lead}, z ∈ sortLeads l ↔ z ∈ l := by
  intro l
  induction l with
  | nil => simp [sortLeads]
  | cons y ys ih =>
    show z ∈ insertLead y (sortLeads ys) ↔ _
    rw [mem_insertLead]
    simp only [List.mem_cons]
    rw [show (z ∈ sortLeads ys) = (z ∈ ys) from propext ih]

theorem sorted_insertLead {x : Lead} : ∀ {l : List Lead},
    List.Pairwise (fun a b : Lead => b.score ≤ a.score) l →
    List.Pairwise (fun a b : Lead => b.score ≤ a.score) (insertLead x l) := by
  intro l
  induction l with
  | nil => intro _; simp [insertLead]
  | cons y ys ih =>
    intro h
    rcases List.pairwise_cons.mp h with ⟨hy, hys⟩
    simp only [insertLead]
    split
    · rename_i hlt
      refine List.pairwise_cons.mpr ⟨?_, ih hys⟩
      intro z hz
      rcases mem_insertLead.mp hz with rfl | hz
      · exact Nat.le_of_lt hlt
      · exact hy z hz
    · rename_i hge
      refine List.pairwise_cons.mpr ⟨?_, h⟩
      intro z hz
      rcases List.mem_cons.mp hz with rfl | hz
      · exact Nat.le_of_not_lt hge
      · exact Nat.le_trans (hy z hz) (Nat.le_of_not_lt hge)

theorem sorted_sortLeads : ∀ (l : List Lead),
    List.Pairwise (fun a b : Lead => b.score ≤ a.score) (sortLeads l) := by
  intro l
  induction l with
  | nil => simp [sortLeads]
  | cons y ys ih => exact sorted_insertLead ih

/-- Inserting an element of score `s` places it before every later
element of score `s` (it only skips strictly greater scores), and
inserting any other element leaves the score-`s` subsequence
untouched. -/
theorem filter_insertLead (x : Lead) (s : Nat) : ∀ (l : List Lead),
    (insertLead x l).filter (fun y => y.score == s)
      = if x.score == s then x :: l.filter (fun y => y.score == s)
        else l.filter (fun y => y.score == s) := by
  intro l
  induction l with
  | nil => simp [insertLead, List.filter_cons]
  | cons y ys ih =>
    simp only [insertLead]
    split
    · rename_i hlt
      rw [List.filter_cons, List.filter_cons, ih]
      by_cases hxs : (x.score == s) = true
      · have hx : x.score = s := by simpa using hxs
        have hys : (y.score == s) = false := by
          simp only [beq_eq_false_iff_ne]
          omega
        simp [hxs, hys]
      · simp [hxs]
    · rw [List.filter_cons]

theorem filter_sortLeads (s : Nat) : ∀ (l : List Lead),
    (sortLeads l).filter (fun y => y.score == s) = l.filter (fun y => y.score == s) := by
  intro l
  induction l with
  | nil => rfl
  | cons y ys ih =>
    show ((insertLead y (sortLeads ys)).filter _) = _
    rw [filter_insertLead, List.filter_cons]
    by_cases h : (y.score == s) = true
    · rw [if_pos h, if_pos h, ih]
    · rw [if_neg (by simp_all), if_neg (by simp_all), ih]

theorem cleanSummary_length_le (html : List Char) : (cleanSummary html).length ≤ 203 := by
  simp only [cleanSummary]
  by_cases h : 200 < (stripHtml html).length
  · rw [if_pos h]
    have h3 : ("...".data).length = 3 := rfl
    simp only [List.length_append, List.length_take, h3]
    omega
  · rw [if_neg h]
    omega

/-! ### Validator lemmas -/

theorem afterScheme_suffix : ∀ (l : List Char), afterScheme l <:+ l := by
  intro l
  induction l with
  | nil => simp [afterScheme]
  | cons c cs ih =>
    simp only [afterScheme]
    split
    · exact (List.drop_suffix 2 cs).trans (List.suffix_cons c cs)
    · exact ih.trans (List.suffix_cons c cs)

theorem urlHost_within (u : List Char) : urlHost u <:+: u :=
  ((List.takeWhile_prefix _).isInfix).trans ((afterScheme_suffix u).isInfix)

theorem isSubstring_host {d u : List Char} (h : isSubstring d (urlHost u) = true) :
    isSubstring d u = true := by
  rw [isSubstring_iff_occurs] at h ⊢
  exact h.trans (urlHost_within u)

/-- A url containing a skip-domain entry is neither probed nor ever the
subject of a rewrite, anywhere in the validation loop. -/
theorem validateLoop_skipped (live : List Char → Bool) (skips : List (List Char))
    {u : List Char} (hu : skips.any (fun d => isSubstring d u) = true) :
    ∀ (ms : List (List Char × List Char)) (acc : List Char),
      u ∉ (validateLoop live skips ms acc).calls
      ∧ ∀ t, (t, u) ∉ (validateLoop live skips ms acc).rewrites := by
  intro ms
  induction ms with
  | nil =>
    intro acc
    simp [validateLoop]
  | cons hd rest ih =>
    intro acc
    obtain ⟨t0, u0⟩ := hd
    simp only [validateLoop]
    split
    · exact ih acc
    · rename_i hsk
      have hne : u ≠ u0 := fun he => hsk (he ▸ hu)
      split
      · refine ⟨?_, fun t hr => (ih acc).2 t hr⟩
        intro hc
        rcases List.mem_cons.mp hc with he | hc2
        · exact hne he
        · exact (ih acc).1 hc2
      · refine ⟨?_, fun t hr => ?_⟩
        · intro hc
          rcases List.mem_cons.mp hc with he | hc2
          · exact hne he
          · exact (ih _).1 hc2
        · rcases List.mem_cons.mp hr with he | hr2
          · exact hne (congrArg Prod.snd he)
          · exact (ih _).2 t hr2

/-- `replaceAllAux` does not depend on the fuel as long as the fuel
dominates the input length (every step consumes at least one
character). -/
theorem replaceAllAux_fuel (pat repl : List Char) (hp : pat ≠ []) :
    ∀ (fuel1 fuel2 : Nat) (l : List Char), l.length ≤ fuel1 → l.length ≤ fuel2 →
      replaceAllAux pat repl fuel1 l = replaceAllAux pat repl fuel2 l := by
  intro fuel1
  induction fuel1 with
  | zero =>
    intro fuel2 l h1 h2
    have hl : l = [] := List.length_eq_zero.mp (Nat.le_zero.mp h1)
    subst hl
    cases fuel2 <;> rfl
  | succ f ih =>
    intro fuel2 l h1 h2
    cases l with
    | nil => cases fuel2 <;> rfl
    | cons c cs =>
      cases fuel2 with
      | zero => simp at h2
      | succ f2 =>
        have hplen : 1 ≤ pat.length := List.length_pos.mpr hp
        have hcs1 : cs.length ≤ f := by simp at h1; omega
        have hcs2 : cs.length ≤ f2 := by simp at h2; omega
        simp only [replaceAllAux]
        by_cases hpre : pat.isPrefixOf (c :: cs) = true
        · rw [if_pos hpre, if_pos hpre]
          congr 1
          apply ih
          · simp only [List.length_drop, List.length_cons]
            omega
          · simp only [List.length_drop, List.length_cons]
            omega
        · rw [if_neg hpre, if_neg hpre]
          congr 1
          exact ih f2 cs hcs1 hcs2

/-- A `str.replace` scan beginning right at an occurrence of the
pattern emits the replacement and resumes after the occurrence. -/
theorem replaceAll_cons_match (pat repl post : List Char) (hp : pat ≠ []) :
    replaceAll pat repl (pat ++ post) = repl ++ replaceAll pat repl post := by
  obtain ⟨p, ps, rfl⟩ : ∃ p ps, pat = p :: ps := by
    cases pat with
    | nil => exact absurd rfl hp
    | cons p ps => exact ⟨p, ps, rfl⟩
  have hpre : (p :: ps).isPrefixOf (p :: (ps ++ post)) = true :=
    List.isPrefixOf_iff_prefix.mpr (List.prefix_append (p :: ps) post)
  show replaceAllAux (p :: ps) repl ((ps ++ post).length + 1) (p :: (ps ++ post))
    = repl ++ replaceAllAux (p :: ps) repl post.length post
  simp only [replaceAllAux]
  rw [if_pos hpre]
  congr 1
  rw [show (p :: (ps ++ post)).drop (p :: ps).length = post from by
        rw [List.length_cons, List.drop_succ_cons, List.drop_left]]
  exact replaceAllAux_fuel _ _ hp _ _ post (by rw [List.length_append]; omega) (Nat.le_refl _)

/-- A `str.replace` scan at a position where the pattern does not match
keeps the character and moves one position right. -/
theorem replaceAll_cons_miss (pat repl : List Char) (c : Char) (cs : List Char)
    (h : pat.isPrefixOf (c :: cs) = false) :
    replaceAll pat repl (c :: cs) = c :: replaceAll pat repl cs := by
  have hp : pat ≠ [] := by
    intro he
    subst he
    simp at h
  have hpe : ¬(pat.isEmpty = true) := by simpa [List.isEmpty_iff] using hp
  simp only [replaceAll]
  rw [if_neg hpe, if_neg hpe]
  rw [show (c :: cs).length = cs.length + 1 from rfl]
  simp only [replaceAllAux]
  rw [if_neg (by simp [h])]

/-- `str.replace` passes unchanged over a leading segment at none of
whose positions the pattern matches. -/
theorem replaceAll_skip_unmatched (pat repl : List Char) :
    ∀ (pre rest : List Char),
      (pre.tails.all fun s => s.isEmpty || !(pat.isPrefixOf (s ++ rest))) = true →
      replaceAll pat repl (pre ++ rest) = pre ++ replaceAll pat repl rest := by
  intro pre
  induction pre with
  | nil => intro rest _; rfl
  | cons c pre1 ih =>
    intro rest hall
    simp only [List.tails_cons, List.all_cons, Bool.and_eq_true] at hall
    obtain ⟨h1, h2⟩ := hall
    simp only [List.isEmpty_cons, Bool.false_or, Bool.not_eq_true',
      List.cons_append] at h1
    rw [show (c :: pre1) ++ rest = c :: (pre1 ++ rest) from rfl]
    rw [replaceAll_cons_miss pat repl c (pre1 ++ rest) h1, ih rest h2]
    rfl

/-- For a fixed pair `(t, u)`, the `rewrites` trace of the validation
loop records exactly one entry per occurrence of `(t, u)` in the match
list when `u` is neither skipped nor live, and none otherwise. -/
theorem validateLoop_rewrites_count (live : List Char → Bool) (skips : List (List Char))
    (t u : List Char) :
    ∀ (ms : List (List Char × List Char)) (acc : List Char),
      List.count (t, u) (validateLoop live skips ms acc).rewrites
        = if skips.any (fun d => isSubstring d u) = false ∧ live u = false
          then List.count (t, u) ms else 0 := by
  intro ms
  induction ms with
  | nil =>
    intro acc
    simp only [validateLoop]
    split <;> simp
  | cons hd rest ih =>
    intro acc
    obtain ⟨t0, u0⟩ := hd
    simp only [validateLoop]
    split
    · rename_i hsk0
      rw [ih acc]
      by_cases heq : (t, u) = (t0, u0)
      · injection heq with ht hu
        subst ht
        subst hu
        have hCf : ¬(skips.any (fun d => isSubstring d u) = false ∧ live u = false) := by
          intro hC
          rw [hC.1] at hsk0
          exact Bool.false_ne_true hsk0
        rw [if_neg hCf, if_neg hCf]
      · by_cases hC : skips.any (fun d => isSubstring d u) = false ∧ live u = false
        · rw [if_pos hC, if_pos hC, List.count_cons_of_ne heq]
        · rw [if_neg hC, if_neg hC]
    · rename_i hsk0
      split
      · rename_i hlv0
        rw [ih acc]
        by_cases heq : (t, u) = (t0, u0)
        · injection heq with ht hu
          subst ht
          subst hu
          have hCf : ¬(skips.any (fun d => isSubstring d u) = false ∧ live u = false) := by
            intro hC
            rw [hC.2] at hlv0
            exact Bool.false_ne_true hlv0
          rw [if_neg hCf, if_neg hCf]
        · by_cases hC : skips.any (fun d => isSubstring d u) = false ∧ live u = false
          · rw [if_pos hC, if_pos hC, List.count_cons_of_ne heq]
          · rw [if_neg hC, if_neg hC]
      · rename_i hlv0
        by_cases heq : (t, u) = (t0, u0)
        · injection heq with ht hu
          subst ht
          subst hu
          have hC : skips.any (fun d => isSubstring d u) = false ∧ live u = false :=
            ⟨by simpa using hsk0, by simpa using hlv0⟩
          rw [List.count_cons_self, ih _, if_pos hC, if_pos hC, List.count_cons_self]
        · rw [List.count_cons_of_ne heq, ih _]
          by_cases hC : skips.any (fun d => isSubstring d u) = false ∧ live u = false
          · rw [if_pos hC, if_pos hC, List.count_cons_of_ne heq]
          · rw [if_neg hC, if_neg hC]

theorem linkText_ne_nil (t u : List Char) : linkText t u ≠ [] := by
  simp [linkText]

/-- The validation loop only consults the liveness checker on urls that
pass the skip-domain filter: two checkers agreeing on all non-skipped
urls produce identical results. -/
theorem validateLoop_congr (liveA liveB : List Char → Bool) (skips : List (List Char))
    (hagree : ∀ v, skips.any (fun d => isSubstring d v) = false → liveA v = liveB v) :
    ∀ (ms : List (List Char × List Char)) (acc : List Char),
      validateLoop liveA skips ms acc = validateLoop liveB skips ms acc := by
  intro ms
  induction ms with
  | nil => intro acc; rfl
  | cons hd rest ih =>
    intro acc
    obtain ⟨t0, u0⟩ := hd
    simp only [validateLoop]
    split
    · exact ih acc
    · rename_i hsk
      have hb : liveA u0 = liveB u0 := hagree u0 (by simpa using hsk)
      rw [hb]
      split
      · rw [ih acc]
      · rw [ih _]

/-! ## Claims about the Validator -/

/-- C2 fails as stated: when the same not-live `(display_text, url)`
pair is extracted twice, the first loop iteration annotates both
occurrences, and the second iteration's replace-all still matches the
original link text as a prefix of the already-annotated text, so each
occurrence ends up with two markers instead of one. -/
theorem duplicate_pair_double_marked_cex :
    validateGrokReport (fun _ => false) SKIP_DOMAINS "[B](http://d) [B](http://d)".data
        ≠ ("[B](http://d)".data ++ warnMark ++ " ".data ++ "[B](http://d)".data ++ warnMark)
    ∧ validateGrokReport (fun _ => false) SKIP_DOMAINS "[B](http://d) [B](http://d)".data
        = ("[B](http://d)".data ++ warnMark ++ warnMark ++ " ".data
            ++ "[B](http://d)".data ++ warnMark ++ warnMark) :=
  ⟨by decide, by decide⟩

/-- C2 (amended): for every liveness checker, skip list, input text and
`(display_text, url)` pair, the validator performs the marker rewrite
for that pair exactly once per extracted match of it that is neither
skipped nor live — so a duplicated pair is rewritten once per
duplicate, not once overall — and each such rewrite is
`replaceAll (linkText t u) (linkText t u ++ warnMark)`, which on
reaching an occurrence of the link text appends the marker after it,
keeping the original link text and the preceding unmatched text in
place. Since the annotated occurrence therefore still begins with the
original link text, the rewrite of a later duplicate extraction
matches it again: with a pair extracted twice each occurrence ends
with two markers, as the counterexample shows. -/
theorem annotation_per_extracted_match (live : List Char → Bool) (skips : List (List Char))
    (text t u : List Char) :
    (List.count (t, u) (validateLoop live skips (scanLinks text) text).rewrites
      = if skips.any (fun d => isSubstring d u) = false ∧ live u = false
        then List.count (t, u) (scanLinks text) else 0)
    ∧ ∀ pre post : List Char,
        (pre.tails.all fun s =>
          s.isEmpty || !((linkText t u).isPrefixOf (s ++ (linkText t u ++ post)))) = true →
        replaceAll (linkText t u) (linkText t u ++ warnMark) (pre ++ (linkText t u ++ post))
          = pre ++ ((linkText t u ++ warnMark)
              ++ replaceAll (linkText t u) (linkText t u ++ warnMark) post) := by
  constructor
  · exact validateLoop_rewrites_count live skips t u (scanLinks text) text
  · intro pre post hall
    rw [replaceAll_skip_unmatched (linkText t u) (linkText t u ++ warnMark) pre
        (linkText t u ++ post) hall]
    rw [replaceAll_cons_match (linkText t u) (linkText t u ++ warnMark) post
        (linkText_ne_nil t u)]

/-- Witness for C2's amended claim: on the duplicated pair text with an
always-false checker, the pair `("A", "http://a")` is rewritten twice
(once per extracted match), and one rewrite pass on a clean leading
segment appends the marker after the occurrence. -/
theorem annotation_per_extracted_match_w :
    List.count ("A".data, "http://a".data)
        (validateLoop (fun _ => false) SKIP_DOMAINS
          (scanLinks "[A](http://a) [A](http://a)".data)
          "[A](http://a) [A](http://a)".data).rewrites = 2
    ∧ replaceAll (linkText "A".data "http://a".data)
          (linkText "A".data "http://a".data ++ warnMark)
          ("z ".data ++ (linkText "A".data "http://a".data ++ " tail".data))
        = "z ".data ++ ((linkText "A".data "http://a".data ++ warnMark)
            ++ replaceAll (linkText "A".data "http://a".data)
                (linkText "A".data "http://a".data ++ warnMark) " tail".data) :=
  ⟨((annotation_per_extracted_match (fun _ => false) SKIP_DOMAINS
      "[A](http://a) [A](http://a)".data "A".data "http://a".data).1).trans (by decide),
   (annotation_per_extracted_match (fun _ => false) SKIP_DOMAINS
      "[A](http://a) [A](http://a)".data "A".data "http://a".data).2
      "z ".data " tail".data (by decide)⟩

/-- C5: for every extracted link whose url's host contains a
skip-domain entry, the liveness checker is never invoked on that url
and the pair is never rewritten (annotated) — for any liveness checker
whatsoever — and the validator's output cannot depend on what the
checker would have answered on skipped urls: checkers that agree on
the non-skipped urls give identical output. -/
theorem skip_domain_never_probed (live : List Char → Bool) (skips : List (List Char))
    (text t u : List Char) (_hmem : (t, u) ∈ scanLinks text)
    (hd : ∃ d ∈ skips, isSubstring d (urlHost u) = true) :
    (u ∉ (validateLoop live skips (scanLinks text) text).calls
      ∧ (t, u) ∉ (validateLoop live skips (scanLinks text) text).rewrites)
    ∧ ∀ liveB : List Char → Bool,
        (∀ v, skips.any (fun d => isSubstring d v) = false → live v = liveB v) →
        validateGrokReport live skips text = validateGrokReport liveB skips text := by
  have hu : skips.any (fun d => isSubstring d u) = true := by
    rcases hd with ⟨d, hdmem, hdsub⟩
    exact List.any_eq_true.mpr ⟨d, hdmem, isSubstring_host hdsub⟩
  refine ⟨⟨(validateLoop_skipped live skips hu _ _).1,
    (validateLoop_skipped live skips hu _ _).2 t⟩, ?_⟩
  intro liveB hagree
  simp only [validateGrokReport]
  rw [validateLoop_congr live liveB skips hagree]

/-- Witness for C5: with the built-in skip list, the link
`[T](https://x.com/abc)` (host `x.com`) is neither probed nor
rewritten, for a checker that would have answered `true`. -/
theorem skip_domain_never_probed_w :
    "https://x.com/abc".data
        ∉ (validateLoop (fun _ => true) SKIP_DOMAINS
            (scanLinks "[T](https://x.com/abc)".data) "[T](https://x.com/abc)".data).calls
    ∧ ("T".data, "https://x.com/abc".data)
        ∉ (validateLoop (fun _ => true) SKIP_DOMAINS
            (scanLinks "[T](https://x.com/abc)".data) "[T](https://x.com/abc)".data).rewrites :=
  (skip_domain_never_probed (fun _ => true) SKIP_DOMAINS "[T](https://x.com/abc)".data
    "T".data "https://x.com/abc".data (by decide) (by decide)).1

/-- C8: on text from which the pattern extracts no links, the validator
is the identity, and hence idempotent — for every liveness checker and
skip-domain list. -/
theorem no_links_identity (live : List Char → Bool) (skips : List (List Char))
    (text : List Char) (h : scanLinks text = []) :
    validateGrokReport live skips text = text
    ∧ validateGrokReport live skips (validateGrokReport live skips text) = text := by
  have h1 : validateGrokReport live skips text = text := by
    simp [validateGrokReport, h]
  refine ⟨h1, ?_⟩
  rw [h1]
  exact h1

/-- Witness for C8 on the link-free text `no links here`. -/
theorem no_links_identity_w :
    validateGrokReport (fun _ => false) SKIP_DOMAINS "no links here".data
        = "no links here".data
    ∧ validateGrokReport (fun _ => false) SKIP_DOMAINS
        (validateGrokReport (fun _ => false) SKIP_DOMAINS "no links here".data)
        = "no links here".data :=
  no_links_identity (fun _ => false) SKIP_DOMAINS "no links here".data (by decide)

/-- C10: the skip test `any(domain in url for domain in skip_domains)`
is a substring check on the whole url string, so a skip entry occurring
anywhere in the url — e.g. in its path — suppresses the probe and the
rewrite exactly as a host match does. -/
theorem skip_entry_anywhere_in_url (live : List Char → Bool) (skips : List (List Char))
    (text t u : List Char) (_hmem : (t, u) ∈ scanLinks text)
    (hd : ∃ d ∈ skips, isSubstring d u = true) :
    u ∉ (validateLoop live skips (scanLinks text) text).calls
    ∧ (t, u) ∉ (validateLoop live skips (scanLinks text) text).rewrites := by
  have hu : skips.any (fun d => isSubstring d u) = true := by
    rcases hd with ⟨d, hdmem, hdsub⟩
    exact List.any_eq_true.mpr ⟨d, hdmem, hdsub⟩
  exact ⟨(validateLoop_skipped live skips hu _ _).1,
    (validateLoop_skipped live skips hu _ _).2 t⟩

/-- Witness for C10: the url `https://evil.example/x.com` has host
`evil.example`, yet the `x.com` entry in its path suppresses probe and
rewrite. -/
theorem skip_entry_anywhere_in_url_w :
    "https://evil.example/x.com".data
        ∉ (validateLoop (fun _ => true) SKIP_DOMAINS
            (scanLinks "[E](https://evil.example/x.com)".data)
            "[E](https://evil.example/x.com)".data).calls
    ∧ ("E".data, "https://evil.example/x.com".data)
        ∉ (validateLoop (fun _ => true) SKIP_DOMAINS
            (scanLinks "[E](https://evil.example/x.com)".data)
            "[E](https://evil.example/x.com)".data).rewrites :=
  skip_entry_anywhere_in_url (fun _ => true) SKIP_DOMAINS
    "[E](https://evil.example/x.com)".data "E".data "https://evil.example/x.com".data
    (by decide) (by decide)

/-! ## Claims about the Scoring Engine -/

/-- C1: an item yields a Lead iff at least one of the Money, Pain or
Urgency (desperation) keyword categories matches the case-folded
concatenation of title and body; when none of the three matches — in
particular when only TechMatch fires — no Lead is produced and the
analysis returns score 0. -/
theorem lead_iff_money_pain_urgency (r : RawItem) :
    ((leadOf r).isSome = true
        ↔ (moneyHit r.title r.body || painHit r.title r.body || urgencyHit r.title r.body) = true)
    ∧ (moneyHit r.title r.body = false → painHit r.title r.body = false →
        urgencyHit r.title r.body = false →
        leadOf r = none ∧ analyzeContent r.title r.body = ([], 0)) := by
  constructor
  · rw [leadOf_isSome_iff]
    exact analyzeContent_fst_ne_nil_iff _ _
  · intro hm hp hu
    have h2 : analyzeContent r.title r.body = ([], 0) := by
      rw [analyzeContent_eq]
      simp [hm, hp, hu]
    refine ⟨?_, h2⟩
    simp only [leadOf]
    rw [h2]
    simp

/-- Witness for C1 at an item that matches only TechMatch keywords
(`Python`, `Automation`): no Lead, score 0. -/
theorem lead_iff_money_pain_urgency_w :
    leadOf { title := "Python automation".data, body := "".data, url := "u".data,
             postedAt := "".data, sourceTag := "v2ex".data } = none
    ∧ analyzeContent "Python automation".data "".data = ([], 0) :=
  (lead_iff_money_pain_urgency
    { title := "Python automation".data, body := "".data, url := "u".data,
      postedAt := "".data, sourceTag := "v2ex".data }).2 (by decide) (by decide) (by decide)

/-- C3: the spec's concrete scenario. The title `急招兼职爬虫工程师` hits
Money (`兼职`, `招`, `急`) and Desperation (`急`), and with the body
`预算5000，Python` the tech matches are `Python` and `爬虫` (in the fixed
`TECH_KEYWORDS` order), so the single item yields exactly one Lead with
score 20 + 100 + 30 + 50 = 200 and tags in the fixed category order
Money, Urgent, Tech — the code spells the spec's `Money`, `Urgent` and
`Tech:Python,爬虫` tags as `💰Money`, `🔥Urgent` and `🛠️Python,爬虫`. -/
theorem concrete_scenario_lead :
    scoreItems [{ title := "急招兼职爬虫工程师".data, body := "预算5000，Python".data,
                  url := "https://x.example/1".data, postedAt := "".data,
                  sourceTag := "v2ex".data }]
      = [{ source := "v2ex".data, title := "急招兼职爬虫工程师".data,
           url := "https://x.example/1".data, summary := "预算5000，Python".data,
           postedDate := "".data,
           tags := ["💰Money".data, "🔥Urgent".data, "🛠️Python,爬虫".data],
           score := 200 }] := by decide

/-- C4: the Scoring Engine's output is sorted by score descending, and
the subsequence of output leads holding any fixed score equals the
corresponding subsequence of the (input-ordered) lead list, i.e. the
sort is stable: equal-score leads keep the relative order of their
source items. -/
theorem scoreItems_sorted_stable (items : List RawItem) :
    List.Pairwise (fun a b : Lead => b.score ≤ a.score) (scoreItems items)
    ∧ ∀ s : Nat, (scoreItems items).filter (fun l => l.score == s)
        = (items.filterMap leadOf).filter (fun l => l.score == s) := by
  exact ⟨sorted_sortLeads _, fun s => filter_sortLeads s _⟩

/-- C6: the liveness checker `verify_link`, as a total function of the
two probe outcomes (totality models "never raises"), answers `true`
exactly when the final observed status is 200: either the HEAD probe
(after redirects) returned 200, or it returned a status other than 200
and 404 and the GET fallback returned 200. Every request failure
(`Except.error`) and every 404 therefore yields `false`. -/
theorem verifyLink_live_iff (headRes getRes : Except Unit Nat) :
    verifyLink headRes getRes = true ↔
      (headRes = Except.ok 200 ∨
        ∃ s, headRes = Except.ok s ∧ s ≠ 200 ∧ s ≠ 404 ∧ getRes = Except.ok 200) := by
  cases headRes with
  | error e => simp [verifyLink]
  | ok s =>
    by_cases h200 : s = 200
    · subst h200
      simp [verifyLink]
    · by_cases h404 : s = 404
      · subst h404
        simp [verifyLink, h200]
      · cases getRes with
        | error e => simp [verifyLink, h200, h404]
        | ok s2 => simp [verifyLink, h200, h404]

/-- C7: every Lead the Scoring Engine emits has a strictly positive
score and a non-empty tag list; zero-score (non-qualifying) items are
dropped before the sort and never appear. -/
theorem lead_score_pos_tags_ne_nil (items : List RawItem) (l : Lead)
    (h : l ∈ scoreItems items) : 0 < l.score ∧ l.tags ≠ [] := by
  have hmem : l ∈ items.filterMap leadOf := mem_sortLeads.mp h
  rcases List.mem_filterMap.mp hmem with ⟨r, -, hr⟩
  rcases leadOf_eq_some hr with ⟨htags, hscore, hne, -⟩
  constructor
  · rw [hscore]
    exact analyzeContent_snd_pos _ _ hne
  · rw [htags]
    exact hne

/-- Witness for C7 at a single Pain-matching item (`求助`): its Lead has
score 10 and tag list `[🚑Pain]`. -/
theorem lead_score_pos_tags_ne_nil_w :
    0 < ({ source := "v2ex".data, title := "求助".data, url := "u".data,
           summary := "".data, postedDate := "".data, tags := ["🚑Pain".data],
           score := 10 } : Lead).score
    ∧ ({ source := "v2ex".data, title := "求助".data, url := "u".data,
         summary := "".data, postedDate := "".data, tags := ["🚑Pain".data],
         score := 10 } : Lead).tags ≠ [] :=
  lead_score_pos_tags_ne_nil
    [{ title := "求助".data, body := "".data, url := "u".data, postedAt := "".data,
       sourceTag := "v2ex".data }]
    { source := "v2ex".data, title := "求助".data, url := "u".data, summary := "".data,
      postedDate := "".data, tags := ["🚑Pain".data], score := 10 }
    (by decide)

/-- C9 fails as stated: `_clean_summary` appends `"..."` after the
200-character cut, so a qualifying item whose stripped body has 201
characters gets a 203-character summary, violating the claimed
200-character bound. -/
theorem lead_summary_over_200_cex :
    ¬ (∀ l ∈ scoreItems [⟨"求助".data, List.replicate 201 'a', "u".data, "".data, "v2ex".data⟩],
        l.summary.length ≤ 200) := by decide

/-- C9 (amended): the summary of every emitted Lead is the item's body
with HTML tags stripped, truncated to its first 200 characters with an
ellipsis `"..."` appended when the stripped body exceeds 200
characters — hence at most 203 characters long. -/
theorem lead_summary_stripped_truncated (r : RawItem) (l : Lead)
    (h : leadOf r = some l) :
    l.summary = cleanSummary r.body ∧ l.summary.length ≤ 203 := by
  rcases leadOf_eq_some h with ⟨-, -, -, hsum⟩
  rw [hsum]
  exact ⟨rfl, cleanSummary_length_le r.body⟩

/-- Witness for C9's amended claim at a Pain-matching item with an
HTML body: the summary is the stripped body, within the 203 bound. -/
theorem lead_summary_stripped_truncated_w :
    ({ source := "v2ex".data, title := "求助".data, url := "u".data,
       summary := "ab".data, postedDate := "".data, tags := ["🚑Pain".data],
       score := 10 } : Lead).summary = cleanSummary "a<b>b".data
    ∧ ({ source := "v2ex".data, title := "求助".data, url := "u".data,
         summary := "ab".data, postedDate := "".data, tags := ["🚑Pain".data],
         score := 10 } : Lead).summary.length ≤ 203 :=
  lead_summary_stripped_truncated
    { title := "求助".data, body := "a<b>b".data, url := "u".data, postedAt := "".data,
      sourceTag := "v2ex".data }
    { source := "v2ex".data, title := "求助".data, url := "u".data, summary := "ab".data,
      postedDate := "".data, tags := ["🚑Pain".data], score := 10 }
    (by decide)

end Intel
